import Mathlib

/-!
Verification development for the term-data-table repository.

The repository renders tabular data as text. The core pieces embedded here:

* the text layout algorithm of Cell::layout in src/src/cell.rs, including its
  byte-index bookkeeping (string slices are modelled byte-accurately, and every
  place where the Rust code would panic is modelled as an explicit error value);
* the minimum-width computation Cell::min_width;
* the border-junction resolver of src/src/row.rs (Borders::joiner and the
  iter_joins / iter_junctions iterators);
* the Display implementation for Table in src/src/lib.rs;
* the col_span setters of Cell (src/src/cell.rs) and TableCell
  (src/src/table_cell.rs);
* the wrapping and line-rendering functions TableCell::wrapped_content
  (src/src/table_cell.rs) and Cell::render_line (src/src/cell.rs);
* the width bookkeeping of Row::layout (src/src/row.rs) and Cell::width
  (src/src/cell.rs).

Text is modelled as a list of abstract characters drawn from a small alphabet
that is sufficient for the properties considered: a newline (1 byte, display
width 0), a space (1 byte, width 1), an ordinary narrow letter (1 byte,
width 1), a wide CJK-style character (3 bytes in UTF-8, width 2) and the NUL
character (1 byte, width 0; it is only ever produced as output padding, never
part of cell content in the theorems below). Byte positions are modelled
exactly: slicing at a position that is not a character boundary, or past the
end, is the corresponding Rust panic and is returned as an error value.
-/

/-- Abstract characters of the text model. -/
inductive MChar where
  | nl
  | sp
  | ltr
  | wide
  | nul0
  deriving DecidableEq, Repr

/-- Number of UTF-8 bytes of a character (wide CJK characters take 3 bytes). -/
def MChar.blen : MChar → Nat
  | .wide => 3
  | _ => 1

/-- Terminal display width of a character, as computed by the unicode-width
crate: control characters (newline, NUL) count 0, wide characters count 2. -/
def MChar.dispW : MChar → Nat
  | .nl => 0
  | .sp => 1
  | .ltr => 1
  | .wide => 2
  | .nul0 => 0

/-- Display width of a string, the sum of the character widths. -/
def strW (s : List MChar) : Nat := (s.map MChar.dispW).sum

/-- Byte length of a string. -/
def blenS (s : List MChar) : Nat := (s.map MChar.blen).sum

/-- The prefix of a string holding exactly k bytes. Returns none when k is not
a character boundary or exceeds the byte length; in Rust the corresponding
slice expression panics there. -/
def takeB : List MChar → Nat → Option (List MChar)
  | _, 0 => some []
  | [], _ + 1 => none
  | c :: cs, k + 1 =>
    if c.blen ≤ k + 1 then (takeB cs (k + 1 - c.blen)).map (fun t => c :: t)
    else none

/-- The suffix of a string after dropping exactly k bytes, with the same
boundary discipline as takeB. -/
def dropB : List MChar → Nat → Option (List MChar)
  | s, 0 => some s
  | [], _ + 1 => none
  | c :: cs, k + 1 =>
    if c.blen ≤ k + 1 then dropB cs (k + 1 - c.blen)
    else none

/-- Byte start index of every character, in order (the Rust char_indices). -/
def charIdxsAux : List MChar → Nat → List Nat
  | [], _ => []
  | c :: cs, p => p :: charIdxsAux cs (p + c.blen)

/-- Byte start indices of the characters of a string. -/
def charIdxs (s : List MChar) : List Nat := charIdxsAux s 0

/-- Kind of a line-break opportunity, as in the unicode-linebreak crate. -/
inductive BreakTy where
  | allowed
  | mandatory
  deriving DecidableEq, Repr

/-- Modelled from the external unicode-linebreak crate (UAX 14), restricted to
the alphabet of the model: whether a break opportunity exists directly after a
character, given the following character. After a newline the break is
mandatory; after a space or after a wide ideograph a break is allowed unless
the next character is a space or a newline; between a narrow letter and a
following wide ideograph a break is allowed; narrow letters otherwise glue. -/
def breakAfter : MChar → MChar → Option BreakTy
  | .nl, _ => some .mandatory
  | .sp, c => if c = .sp ∨ c = .nl then none else some .allowed
  | .wide, c => if c = .sp ∨ c = .nl then none else some .allowed
  | .ltr, .wide => some .allowed
  | _, _ => none

/-- Internal break opportunities of a string (byte position, kind), with p the
byte position of the start of the list. -/
def internalBreaks : List MChar → Nat → List (Nat × BreakTy)
  | [], _ => []
  | [_], _ => []
  | c :: c2 :: cs, p =>
    match breakAfter c c2 with
    | some ty => (p + c.blen, ty) :: internalBreaks (c2 :: cs) (p + c.blen)
    | none => internalBreaks (c2 :: cs) (p + c.blen)

/-- Modelled from the external unicode-linebreak crate: all break opportunities
of a string in order. A mandatory break at the end of text is always yielded
last (for nonempty text). -/
def linebreaksM (s : List MChar) : List (Nat × BreakTy) :=
  match s with
  | [] => []
  | _ => internalBreaks s 0 ++ [(blenS s, .mandatory)]

/-- The ways Cell::layout in src/src/cell.rs can panic: the explicit
panic when the width cannot even hold the padding (tooSmall), a string slice
at an out-of-range or non-boundary byte index (sliceOOB), a usize subtraction
underflow (subUnderflow), and the unreachable macro at the end of the inner
character scan (unreachableHit). -/
inductive LayoutErr where
  | tooSmall
  | sliceOOB
  | subUnderflow
  | unreachableHit
  deriving DecidableEq, Repr

/-- Mutable state of the layout loops of Cell::layout: the accumulated list of
line start byte indices, the remaining text slice, the last remembered break
opportunity, and the byte offset bookkeeping variable. -/
structure LoopSt where
  ln : List Nat
  s : List MChar
  prev : Option Nat
  offset : Nat

/-- The largest usize value, used by Cell::layout when no width is given. -/
def USIZE_MAX : Nat := 2 ^ 64 - 1

/-- The inner character-by-character scan of Cell::layout (the branch taken
when a segment exceeds the width and no earlier opportunity was remembered).
It iterates over the character indices captured when the scan started, even
though the slice s may be reassigned during the scan, exactly as the Rust
iterator does. It never returns to the outer loop: it ends in the one-char
fallback (which clears the accumulated list and returns the character start
indices of the full content with the first one skipped) or in the
unreachable macro. -/
def innerScan (cw : Nat) (content : List MChar) :
    List Nat → LoopSt → Except LayoutErr (List Nat)
  | [], _ => .error .unreachableHit
  | e :: rest, st =>
    match takeB st.s e with
    | none => .error .sliceOOB
    | some pre =>
      if strW pre > cw then
        match st.prev with
        | some idx =>
          match dropB st.s idx with
          | none => .error .sliceOOB
          | some s2 =>
            innerScan cw content rest
              { ln := st.ln ++ [idx], s := s2, prev := none, offset := st.offset + idx }
        | none => .ok ((charIdxs content).drop 1)
      else innerScan cw content rest { st with prev := some e }

/-- The outer loop of Cell::layout over the break opportunities of the content
(with the final end-of-text break removed). Each opportunity carries its byte
index in the original content; the loop measures the prefix of the remaining
slice up to that index minus the offset variable, pushes a line start on
overflow or on a mandatory break, and reassigns the slice, mirroring the
Rust statements including the offset accumulation. -/
def outerScan (cw : Nat) (content : List MChar) :
    List (Nat × BreakTy) → LoopSt → Except LayoutErr (List Nat)
  | [], st => .ok st.ln
  | (chIdx, ty) :: rest, st =>
    if st.offset > chIdx then .error .subUnderflow
    else
      match takeB st.s (chIdx - st.offset) with
      | none => .error .sliceOOB
      | some pre =>
        if strW pre > cw then
          match st.prev with
          | some idx =>
            match dropB st.s idx with
            | none => .error .sliceOOB
            | some s2 =>
              outerScan cw content rest
                { ln := st.ln ++ [idx], s := s2, prev := none, offset := st.offset + idx }
          | none => innerScan cw content (charIdxs st.s) st
        else if ty = .mandatory then
          match dropB st.s chIdx with
          | none => .error .sliceOOB
          | some s2 =>
            outerScan cw content rest
              { ln := st.ln ++ [chIdx], s := s2, prev := none, offset := st.offset + chIdx }
        else outerScan cw content rest { st with prev := some chIdx }

/-- Cell::layout from src/src/cell.rs: computes the list of line start byte
indices for the given content, padding flag and optional width (none means
unbounded and is replaced by the largest usize). Panics are error values. -/
def layoutM (content : List MChar) (padContent : Bool) (width : Option Nat) :
    Except LayoutErr (List Nat) :=
  let w := width.getD USIZE_MAX
  if w < 1 ∨ (padContent ∧ w < 3) then .error .tooSmall
  else
    let cw := if padContent then w - 2 else w
    outerScan cw content (linebreaksM content).dropLast
      { ln := [0], s := content, prev := none, offset := 0 }

/-- The number of lines returned by Cell::layout (the length of the line start
list). -/
def layoutCount (content : List MChar) (padContent : Bool) (width : Option Nat) :
    Except LayoutErr Nat :=
  (layoutM content padContent width).map List.length

/-- Display width of the prefix of the content up to byte index b (used by
Cell::min_width to measure a segment as the difference of two prefixes). -/
def prefW (content : List MChar) (b : Nat) : Nat := strW ((takeB content b).getD [])

/-- Adjacent pairs of a list (the tuple_windows combinator). -/
def segPairs : List Nat → List (Nat × Nat)
  | a :: b :: rest => (a, b) :: segPairs (b :: rest)
  | _ => []

/-- Cell::min_width from src/src/cell.rs: the largest display width of a
segment of the content between consecutive break opportunities (only the
mandatory ones when onlyMandatory is set), plus 2 when padding is enabled. -/
def minWidthM (content : List MChar) (padContent : Bool) (onlyMandatory : Bool) : Nat :=
  let ps := (linebreaksM content).filterMap
    (fun pt => if onlyMandatory ∧ pt.2 ≠ BreakTy.mandatory then none else some pt.1)
  let alls := 0 :: (ps ++ [blenS content])
  let gaps := (segPairs alls).map (fun se => prefW content se.2 - prefW content se.1)
  (gaps.foldl max 0) + (if padContent then 2 else 0)

/-- Content with two mandatory breaks: a letter, newline, letter, newline,
letter (the string with letter a would be a, newline, b, newline, c). -/
def c2failing : List MChar := [.ltr, .nl, .ltr, .nl, .ltr]

/-- Content of two wide characters, used for the narrow-width fallback. -/
def c3failing : List MChar := [.wide, .wide]

/-- Content letter, wide, letter, wide, wide, space, letter, wide, wide on
which the line count is not monotone in the width. -/
def c4failing : List MChar :=
  [.ltr, .wide, .ltr, .wide, .wide, .sp, .ltr, .wide, .wide]

/-- C2: on content with a single mandatory break and ample width, Cell::layout
breaks exactly at the mandatory position: the line starts are byte 0 and the
byte just after the newline. But on content with two mandatory breaks, at
ample width the offset bookkeeping (offset += ch_idx with an absolute index,
then s = s[ch_idx..]) slices the remaining text at an out-of-range byte index
and the layout call panics instead of producing the mandatory breaks. -/
theorem c2_layout_mandatory_break_panics :
    layoutM [.ltr, .nl, .ltr] false (some 100) = .ok [0, 2]
    ∧ layoutM c2failing false (some 100) = .error .sliceOOB
    ∧ layoutM c2failing false none = .error .sliceOOB :=
  ⟨rfl, rfl, rfl⟩

/-- C3: on content of two wide (display width 2) characters with the permitted
unpadded width 1 — too narrow for any soft line-break segment — Cell::layout
reaches the unreachable macro at the end of its inner character scan and
panics instead of performing the documented one-character-per-line fallback. -/
theorem c3_layout_narrow_width_panics :
    layoutM c3failing false (some 1) = .error .unreachableHit
    ∧ minWidthM c3failing false false = 2 :=
  ⟨rfl, by decide⟩

/-- C4: the line count of Cell::layout is not monotonically non-increasing in
the width. On the content c4failing (minimum width 3, unpadded) the layout at
width 3 yields 3 lines but the layout at the larger width 4 falls into the
one-character-per-line fallback and yields 8 lines. -/
theorem c4_layout_count_not_monotone :
    minWidthM c4failing false false = 3
    ∧ layoutCount c4failing false (some 3) = .ok 3
    ∧ layoutCount c4failing false (some 4) = .ok 8 :=
  ⟨by decide, rfl, rfl⟩

/-- The inner character scan never produces the too-small panic: that panic is
raised only by the explicit width check at the top of Cell::layout. -/
theorem innerScan_ne_tooSmall (cw : Nat) (content : List MChar) :
    ∀ (l : List Nat) (st : LoopSt),
      innerScan cw content l st ≠ .error .tooSmall := by
  intro l
  induction l with
  | nil => intro st h; simp [innerScan] at h
  | cons e rest ih =>
    intro st h
    unfold innerScan at h
    split at h
    · simp at h
    · split at h
      · split at h
        · split at h
          · simp at h
          · exact ih _ h
        · simp at h
      · exact ih _ h

/-- The outer loop of Cell::layout never produces the too-small panic. -/
theorem outerScan_ne_tooSmall (cw : Nat) (content : List MChar) :
    ∀ (l : List (Nat × BreakTy)) (st : LoopSt),
      outerScan cw content l st ≠ .error .tooSmall := by
  intro l
  induction l with
  | nil => intro st h; simp [outerScan] at h
  | cons hd rest ih =>
    intro st h
    unfold outerScan at h
    split at h
    · simp at h
    · split at h
      · simp at h
      · split at h
        · split at h
          · split at h
            · simp at h
            · exact ih _ h
          · exact innerScan_ne_tooSmall cw content _ _ h
        · split at h
          · split at h
            · simp at h
            · exact ih _ h
          · exact ih _ h

/-- C6: Cell::layout raises its cell-too-small panic exactly when a finite
width is supplied that cannot hold the padding: width below 1, or width below
3 with padding enabled. With any other supplied width, and always when the
width is none (unbounded, replaced by the largest usize), this particular
failure does not occur. -/
theorem c6_layout_too_small_iff (content : List MChar) (padContent : Bool)
    (width : Option Nat) :
    layoutM content padContent width = .error .tooSmall ↔
      (∃ w, width = some w ∧ (w < 1 ∨ (padContent = true ∧ w < 3))) := by
  constructor
  · intro h
    cases width with
    | none =>
      exfalso
      simp only [layoutM, Option.getD_none] at h
      by_cases hg : USIZE_MAX < 1 ∨ (padContent = true ∧ USIZE_MAX < 3)
      · rcases hg with h1 | ⟨_, h3⟩
        · norm_num [USIZE_MAX] at h1
        · norm_num [USIZE_MAX] at h3
      · rw [if_neg hg] at h
        exact outerScan_ne_tooSmall _ _ _ _ h
    | some w =>
      by_cases hg : w < 1 ∨ (padContent = true ∧ w < 3)
      · exact ⟨w, rfl, hg⟩
      · exfalso
        simp only [layoutM, Option.getD_some] at h
        rw [if_neg hg] at h
        exact outerScan_ne_tooSmall _ _ _ _ h
  · rintro ⟨w, rfl, hw⟩
    simp only [layoutM, Option.getD_some]
    rw [if_pos hw]

/-- Classification of a row boundary at a vertical border position, from
src/src/row.rs: Empty (past the end of the row), Middle (interior to a cell
span), End (a cell boundary). -/
inductive BorderTy where
  | Empty
  | Middle
  | End
  deriving DecidableEq, Repr

/-- The pair of boundary classifications above and below a junction. -/
structure Borders where
  above : BorderTy
  below : BorderTy
  deriving DecidableEq, Repr

/-- The Empty/Empty pair, at which iter_junctions stops. -/
def Borders.EMPTY : Borders := { above := .Empty, below := .Empty }

/-- The eleven border glyphs of a table style (TableStyle in src/src/lib.rs
and src/src/style.rs). -/
structure TableStyleM where
  top_left_corner : Char
  top_right_corner : Char
  bottom_left_corner : Char
  bottom_right_corner : Char
  outer_left_vertical : Char
  outer_right_vertical : Char
  outer_bottom_horizontal : Char
  outer_top_horizontal : Char
  intersection : Char
  vertical : Char
  horizontal : Char

/-- The SIMPLE style constant. -/
def TableStyleM.SIMPLE : TableStyleM :=
  { top_left_corner := '+'
    top_right_corner := '+'
    bottom_left_corner := '+'
    bottom_right_corner := '+'
    outer_left_vertical := '+'
    outer_right_vertical := '+'
    outer_bottom_horizontal := '+'
    outer_top_horizontal := '+'
    intersection := '+'
    vertical := '|'
    horizontal := '-' }

/-- Borders::joiner from src/src/row.rs: the junction glyph for a pair of
boundary classifications, with finalEnd true at the rightmost position. The
Empty/Empty arm is the unreachable macro in the source and is modelled as
none. -/
def Borders.joiner (b : Borders) (style : TableStyleM) (finalEnd : Bool) : Option Char :=
  match b.above, b.below with
  | .Empty, .Empty => none
  | .Empty, .Middle | .Middle, .Empty | .Middle, .Middle => some style.horizontal
  | .Empty, .End | .Middle, .End =>
    some (if finalEnd then style.top_right_corner else style.outer_top_horizontal)
  | .End, .Empty | .End, .Middle =>
    some (if finalEnd then style.bottom_right_corner else style.outer_bottom_horizontal)
  | .End, .End =>
    some (if finalEnd then style.outer_right_vertical else style.intersection)

/-- The values produced by the iter_joins iterator of Row (src/src/row.rs)
before it degenerates to Empty forever: it starts as if a cell had just
finished (End), then for each cell of the row emits span minus 1 Middle values
followed by End. -/
def joinsList (spans : List Nat) : List BorderTy :=
  .End :: (spans.map (fun s => List.replicate (s - 1) BorderTy.Middle ++ [BorderTy.End])).flatten

/-- The k-th value of the iter_joins iterator: the listed prefix, then Empty
forever. -/
def joinsAt (spans : List Nat) (k : Nat) : BorderTy :=
  (joinsList spans).getD k .Empty

/-- The iter_junctions iterator of Row (src/src/row.rs): zip the joins of the
previous (above) row with the joins of the current (below) row and stop at the
first Empty/Empty pair. Once both iterators are past their rows every later
pair is Empty/Empty, so truncating the zipped prefix with takeWhile is exactly
the while_some of the source. -/
def junctionsM (prevSpans curSpans : List Nat) : List Borders :=
  ((List.range (max (joinsList prevSpans).length (joinsList curSpans).length)).map
      (fun k => Borders.mk (joinsAt prevSpans k) (joinsAt curSpans k))).takeWhile
    (fun b => b != Borders.EMPTY)

/-- The junction glyph table as the specification states it: pairings from
Empty and Middle (other than Empty/Empty) give the horizontal rule; Empty or
Middle above with End below gives the top tee, or the top right corner at the
rightmost position; End above with Empty or Middle below gives the bottom tee,
or the bottom right corner at the rightmost position; End/End gives the
intersection, or the right edge vertical at the rightmost position;
Empty/Empty is never emitted. -/
def joinerSpec (a b : BorderTy) (style : TableStyleM) (finalEnd : Bool) : Option Char :=
  match a, b with
  | .Empty, .Empty => none
  | .Empty, .Middle | .Middle, .Empty | .Middle, .Middle => some style.horizontal
  | .Empty, .End | .Middle, .End =>
    some (if finalEnd then style.top_right_corner else style.outer_top_horizontal)
  | .End, .Empty | .End, .Middle =>
    some (if finalEnd then style.bottom_right_corner else style.outer_bottom_horizontal)
  | .End, .End =>
    some (if finalEnd then style.outer_right_vertical else style.intersection)

/-- C1: for every pair of boundary classifications and every style and
position, the junction glyph chosen by Borders::joiner agrees with the table
of the specification, and the Empty/Empty pair is never emitted by
iter_junctions. -/
theorem c1_junction_glyphs :
    (∀ (a b : BorderTy) (style : TableStyleM) (finalEnd : Bool),
        Borders.joiner { above := a, below := b } style finalEnd = joinerSpec a b style finalEnd)
    ∧ (∀ prevSpans curSpans : List Nat, Borders.EMPTY ∉ junctionsM prevSpans curSpans) := by
  constructor
  · intro a b style finalEnd
    cases a <;> cases b <;> rfl
  · intro prevSpans curSpans hmem
    have := List.mem_takeWhile_imp hmem
    simp at this

/-- Witness: the junctions between a row of spans 1, 2 and a row of a single
span 3 never contain the Empty/Empty pair, by the C1 theorem at that input. -/
theorem c1_junction_glyphs_witness :
    Borders.EMPTY ∉ junctionsM [1, 2] [3] :=
  c1_junction_glyphs.2 [1, 2] [3]

/-- Vertical position of a row (RowPosition in src/src/lib.rs). -/
inductive RowPos where
  | First
  | Mid
  | Last

/-- The Display implementation for Table from src/src/lib.rs (lines 529 to
570), embedded with the row-level helpers as parameters: the source calls
methods gen_separator and format on Row whose bodies are not part of the
sources, so they are passed in as functions, together with the column width
computation. The control flow is mirrored exactly: first the column widths are
computed; if the row list is empty nothing at all is written; otherwise each
row generates a separator (always recorded as the previous separator), writes
it only when the row has a separator and it is either the first row with the
top border enabled or a later row with separate rows enabled, then writes its
content; finally the bottom border is written from the last row when
enabled. -/
def tableDisplayM {ρ : Type} (rows : List ρ)
    (calcMaxColumnWidths : List ρ → List Nat)
    (genSeparator : ρ → List Nat → RowPos → Option String → String)
    (formatRow : ρ → List Nat → String)
    (hasTopBorder hasSeparateRows hasBottomBorder : Bool)
    (rowHasSeparator : ρ → Bool) : String :=
  let maxWidths := calcMaxColumnWidths rows
  if rows.isEmpty then ""
  else
    let step := fun (acc : String × Option String) (ir : Nat × ρ) =>
      let i := ir.1
      let row := ir.2
      let rowPos := if i = 0 then RowPos.First else RowPos.Mid
      let sep := genSeparator row maxWidths rowPos acc.2
      let out :=
        if rowHasSeparator row ∧ ((i = 0 ∧ hasTopBorder) ∨ (i ≠ 0 ∧ hasSeparateRows)) then
          acc.1 ++ sep ++ "\n"
        else acc.1
      (out ++ formatRow row maxWidths, some sep)
    let res := rows.enum.foldl step ("", none)
    if hasBottomBorder then
      match rows.getLast? with
      | some lastRow => res.1 ++ genSeparator lastRow maxWidths RowPos.Last none ++ "\n"
      | none => res.1
    else res.1

/-- C5 counterexample: rendering a table with zero rows produces the empty
string, a text of length zero, and in particular not one sentinel marker
line. The row-level helpers are instantiated with concrete functions. -/
theorem c5_empty_table_counterexample :
    tableDisplayM ([] : List Unit) (fun _ => []) (fun _ _ _ _ => "sep")
        (fun _ _ => "row") true true true (fun _ => true) = ""
    ∧ (tableDisplayM ([] : List Unit) (fun _ => []) (fun _ _ _ _ => "sep")
        (fun _ _ => "row") true true true (fun _ => true)).length = 0 :=
  ⟨rfl, rfl⟩

/-- C5 amended: rendering a table with zero rows is not an error and produces
no output at all (the empty string), whatever the style, the flags and the
row-level rendering functions. -/
theorem c5_empty_table_renders_nothing {ρ : Type} (rows : List ρ)
    (calc0 : List ρ → List Nat)
    (gen : ρ → List Nat → RowPos → Option String → String)
    (fmt : ρ → List Nat → String)
    (top sep bot : Bool) (hs : ρ → Bool)
    (h : rows = []) :
    tableDisplayM rows calc0 gen fmt top sep bot hs = "" := by
  subst h
  rfl

/-- Witness for the amended C5 statement at a concrete instantiation. -/
theorem c5_empty_table_renders_nothing_witness :
    tableDisplayM ([] : List Unit) (fun _ => [3]) (fun _ _ _ _ => "s")
        (fun _ _ => "r") false false false (fun _ => false) = "" :=
  c5_empty_table_renders_nothing ([] : List Unit) (fun _ => [3]) (fun _ _ _ _ => "s")
    (fun _ _ => "r") false false false (fun _ => false) rfl

/-- Content alignment of a cell (both cell implementations). -/
inductive AlignmentM where
  | Left
  | Right
  | Center
  deriving DecidableEq, Repr

/-- Cell from src/src/cell.rs: content, column span, alignment, padding flag
and the cached layout line starts (none when stale). -/
structure CellM where
  content : List MChar
  colSpan : Nat
  alignment : AlignmentM
  padContent : Bool
  layoutNewlines : Option (List Nat)

/-- The Default implementation for Cell. -/
def defaultCell : CellM :=
  { content := [], colSpan := 1, alignment := .Left, padContent := true,
    layoutNewlines := none }

/-- Cell::set_col_span from src/src/cell.rs: asserts that the new span is
positive (the assert panic is the error value), stores it and invalidates the
layout cache. -/
def CellM.setColSpan (c : CellM) (colSpan : Nat) : Except String CellM :=
  if colSpan > 0 then .ok { c with colSpan := colSpan, layoutNewlines := none }
  else .error "cannot have a col_span of 0"

/-- TableCell from src/src/table_cell.rs: data, column span, alignment and
padding flag (no cache). -/
structure TableCellM where
  data : List MChar
  colSpan : Nat
  alignment : AlignmentM
  padContent : Bool

/-- The Default implementation for TableCell. -/
def defaultTableCell : TableCellM :=
  { data := [], colSpan := 1, alignment := .Left, padContent := true }

/-- TableCell::set_col_span from src/src/table_cell.rs: stores the new span
without any check. -/
def TableCellM.setColSpan (c : TableCellM) (colSpan : Nat) : TableCellM :=
  { c with colSpan := colSpan }

/-- C7 counterexample: setting the column span of a TableCell to zero is not
rejected: the setter is total and the resulting cell, reachable through the
public builder API, has column span zero. -/
theorem c7_tablecell_span_zero_counterexample :
    (defaultTableCell.setColSpan 0).colSpan = 0 :=
  rfl

/-- C7 amended: Cell::set_col_span (src/src/cell.rs) rejects a zero span
eagerly — the call panics and a successful call always leaves a span of at
least one, with the default being one — but TableCell::set_col_span
(src/src/table_cell.rs) performs no such check, so a TableCell with column
span zero is reachable through the public builder API. -/
theorem c7_cell_span_invariant :
    (∀ c : CellM, c.setColSpan 0 = .error "cannot have a col_span of 0")
    ∧ (∀ (c : CellM) (n : Nat) (r : CellM), c.setColSpan n = .ok r → 1 ≤ r.colSpan)
    ∧ defaultCell.colSpan = 1
    ∧ (defaultTableCell.setColSpan 0).colSpan = 0 := by
  refine ⟨fun c => rfl, ?_, rfl, rfl⟩
  intro c n r h
  unfold CellM.setColSpan at h
  split at h
  · cases h
    simpa using by omega
  · cases h

/-- Witness for the amended C7 statement: a successful span update to 2 on the
default cell yields a span of at least one. -/
theorem c7_cell_span_invariant_witness :
    1 ≤ ({ defaultCell with colSpan := 2, layoutNewlines := none } : CellM).colSpan :=
  c7_cell_span_invariant.2.1 defaultCell 2
    { defaultCell with colSpan := 2, layoutNewlines := none } rfl

/-- Modelled from the spec: the constrained-mode Column-Width Solver (layout at
a fixed total width) belongs to the newer Table implementation of this
repository, which is not present under src (only its callers, such as the
examples, are). Per the specification: divide the total width minus one border
width by the number of columns and subtract one border width to obtain the
interior width of every column except the last; the last column absorbs the
remainder so that the column widths plus the interior borders plus the two
edge borders sum exactly to the total width; fail when the total width is
smaller than the border width times columns plus one, since then not all
borders can be drawn. -/
def fixedColumnWidths (totalWidth borderWidth columns : Nat) : Option (List Nat) :=
  if totalWidth < borderWidth * (columns + 1) then none
  else if columns = 0 then some []
  else
    let per := (totalWidth - borderWidth) / columns - borderWidth
    let lastW := totalWidth - (columns + 1) * borderWidth - (columns - 1) * per
    some (List.replicate (columns - 1) per ++ [lastW])

/-- C8: in constrained mode with at least one column, the solver fails exactly
when the total width cannot accommodate all borders; otherwise it returns one
width per column, every column except the last carries the evenly divided
interior width, and the widths plus all borders sum exactly to the total
width. -/
theorem c8_fixed_width_solver (totalWidth borderWidth columns : Nat)
    (hc : 1 ≤ columns) :
    (totalWidth < borderWidth * (columns + 1) →
      fixedColumnWidths totalWidth borderWidth columns = none)
    ∧ (borderWidth * (columns + 1) ≤ totalWidth →
      ∃ ws, fixedColumnWidths totalWidth borderWidth columns = some ws
        ∧ ws.length = columns
        ∧ (∀ x ∈ ws.dropLast, x = (totalWidth - borderWidth) / columns - borderWidth)
        ∧ ws.sum + (columns + 1) * borderWidth = totalWidth) := by
  constructor
  · intro h
    simp [fixedColumnWidths, h]
  · intro h
    have hnz : columns ≠ 0 := by omega
    have hnot : ¬ totalWidth < borderWidth * (columns + 1) := by omega
    have hws : fixedColumnWidths totalWidth borderWidth columns =
        some (List.replicate (columns - 1) ((totalWidth - borderWidth) / columns - borderWidth)
          ++ [totalWidth - (columns + 1) * borderWidth -
            (columns - 1) * ((totalWidth - borderWidth) / columns - borderWidth)]) := by
      simp [fixedColumnWidths, hnot, hnz]
    refine ⟨_, hws, ?_, ?_, ?_⟩
    · simp [List.length_append, List.length_replicate]
      omega
    · intro x hx
      rw [List.dropLast_concat] at hx
      exact List.eq_of_mem_replicate hx
    · have hT : borderWidth * (columns + 1) + (totalWidth - borderWidth * (columns + 1)) =
          totalWidth := by omega
      set T := totalWidth - borderWidth * (columns + 1) with hTdef
      have hper : (totalWidth - borderWidth) / columns - borderWidth = T / columns := by
        have h1 : totalWidth - borderWidth = T + borderWidth * columns := by
          have : borderWidth * (columns + 1) = borderWidth * columns + borderWidth := by ring
          omega
        rw [h1, Nat.add_mul_div_right _ _ (by omega : 0 < columns)]
        simp
      have hle : (columns - 1) * (T / columns) ≤ T := by
        calc (columns - 1) * (T / columns) ≤ columns * (T / columns) :=
              Nat.mul_le_mul_right _ (by omega)
          _ = (T / columns) * columns := by ring
          _ ≤ T := Nat.div_mul_le_self T columns
      have hcomm : (columns + 1) * borderWidth = borderWidth * (columns + 1) := by ring
      rw [List.sum_append, List.sum_replicate, List.sum_cons, List.sum_nil, smul_eq_mul,
        hper, hcomm]
      omega

/-- Witness for C8 at total width 9, border width 1, two columns: the solver
succeeds, every non-last column gets width 3 and everything sums to 9. -/
theorem c8_fixed_width_solver_witness :
    fixedColumnWidths 9 1 2 = some [3, 3]
    ∧ ([3, 3] : List Nat).sum + (2 + 1) * 1 = 9 := by
  obtain ⟨-, h2⟩ := c8_fixed_width_solver 9 1 2 (by omega)
  obtain ⟨ws, hws, hlen, hall, hsum⟩ := h2 (by omega)
  have hws2 : ws = [3, 3] := by
    rw [show fixedColumnWidths 9 1 2 = some [3, 3] from rfl] at hws
    exact (Option.some_injective _ hws).symm
  exact ⟨by rw [← hws2, hws], by rw [← hws2] at *; omega⟩

/-- The displayed width of a cell, Cell::width from src/src/cell.rs: the sum
of the widths of the columns it spans plus the border width times the span
minus one (interior borders absorbed into the cell). -/
def cellWidthM (span bw : Nat) (ws : List Nat) : Nat :=
  (ws.take span).sum + bw * (span - 1)

/-- The widths that Row::layout (src/src/row.rs) passes to Cell::layout, one
per cell: border width times the span plus one, plus the widths of the spanned
columns, consuming the column width list span entries at a time. -/
def rowLayoutWidths (spans : List Nat) (ws : List Nat) (bw : Nat) : List Nat :=
  match spans with
  | [] => []
  | s :: rest => ((s + 1) * bw + (ws.take s).sum) :: rowLayoutWidths rest (ws.drop s) bw

/-- C9: for every cell (span at least one, enough column widths), the wrapping
width that Row::layout passes to Cell::layout exceeds by exactly twice the
border width the displayed width that Cell::width computes for the same cell
over the same columns. -/
theorem c9_layout_width_exceeds_display_width (spans ws : List Nat) (bw k : Nat)
    (hk : k < spans.length) (hsp : ∀ i ∈ spans, 1 ≤ i)
    (hws : spans.sum ≤ ws.length) :
    (rowLayoutWidths spans ws bw).get? k =
      some (cellWidthM (spans.getD k 0) bw (ws.drop (spans.take k).sum) + 2 * bw) := by
  induction spans generalizing ws k with
  | nil => simp at hk
  | cons s rest ih =>
    cases k with
    | zero =>
      obtain ⟨t, rfl⟩ : ∃ t, s = 1 + t := by
        have := hsp s (by simp)
        exact ⟨s - 1, by omega⟩
      simp only [rowLayoutWidths, List.get?_cons_zero, List.getD_cons_zero, List.take_zero,
        List.sum_nil, List.drop_zero, cellWidthM]
      have h1 : 1 + t - 1 = t := by omega
      rw [h1]
      exact congrArg some (by ring)
    | succ k2 =>
      simp only [rowLayoutWidths, List.get?_cons_succ, List.getD_cons_succ]
      have hws2 : rest.sum ≤ (ws.drop s).length := by
        rw [List.length_drop]
        simp only [List.sum_cons] at hws
        omega
      rw [ih (ws.drop s) k2 (by simpa using hk) (fun i hi => hsp i (by simp [hi])) hws2]
      congr 2
      rw [List.drop_drop, List.take_succ_cons, List.sum_cons]

/-- Witness for C9: one row of spans 2 and 1 over column widths 4, 5, 6 with
border width 1; the first cell is passed width 12 while its displayed width is
10. -/
theorem c9_layout_width_witness :
    (rowLayoutWidths [2, 1] [4, 5, 6] 1).get? 0 =
      some (cellWidthM 2 1 [4, 5, 6] + 2 * 1) :=
  c9_layout_width_exceeds_display_width [2, 1] [4, 5, 6] 1 0 (by decide)
    (by decide) (by decide)

/-- Cell::edge_char from src/src/cell.rs: the character written at each end of
a rendered line, a space with padding enabled and the NUL character without. -/
def edgeCharM (padContent : Bool) : MChar := if padContent then .sp else .nul0

/-- The pad_char of TableCell::wrapped_content from src/src/table_cell.rs: a
space with padding enabled and the NUL character without. -/
def wrapPadChar (padContent : Bool) : MChar := if padContent then .sp else .nul0

/-- Cell::get_padding from src/src/cell.rs: the number of spaces before and
after the text given the assigned width and line width; none models the
assert failure when the width cannot hold the line plus the two edge
characters. -/
def getPaddingM (alignment : AlignmentM) (width lineWidth : Nat) : Option (Nat × Nat) :=
  if width < lineWidth + 2 then none
  else
    let gap := width - lineWidth - 2
    some (match alignment with
      | .Left => (0, gap)
      | .Center => (gap / 2, gap - gap / 2)
      | .Right => (gap, 0))

/-- The slice of the content drawn for one line by Cell::render_line, from the
cached line start list: out of range line indices yield the empty line. -/
def renderLineSlice (content : List MChar) (newlines : List Nat) (lineIdx : Nat) :
    Option (List MChar) :=
  match newlines.get? lineIdx with
  | some startIdx =>
    match newlines.get? (lineIdx + 1) with
    | some endIdx => (dropB content startIdx).bind (fun t => takeB t (endIdx - startIdx))
    | none => dropB content startIdx
  | none => some []

/-- Cell::render_line from src/src/cell.rs: writes the edge character, the
front padding spaces, the line, the back padding spaces and the edge character
again. The characters are collected in order into a list. -/
def renderLineM (c : CellM) (newlines : List Nat) (lineIdx width : Nat) :
    Option (List MChar) :=
  (renderLineSlice c.content newlines lineIdx).bind (fun line =>
    (getPaddingM c.alignment width (strW line)).map (fun fb =>
      edgeCharM c.padContent ::
        ((List.replicate fb.1 MChar.sp ++ line ++ List.replicate fb.2 MChar.sp)
          ++ [edgeCharM c.padContent])))

/-- Loop state of TableCell::wrapped_content: the finished lines, the line
under construction and the byte index into the data. -/
structure WrapSt where
  res : List (List MChar)
  buf : List MChar
  byteIndex : Nat

/-- One iteration of the character loop of TableCell::wrapped_content from
src/src/table_cell.rs: when the byte index is not hidden and either the
current line has reached the width threshold (the width minus one, since both
possible pad characters report width one through unwrap_or) or the character
is a newline, the line is closed with a pad character and a new line is
started; a newline character is consumed without being copied. -/
def wrapStep (padChar : MChar) (width : Nat) (hidden : Nat → Bool)
    (st : WrapSt) (c : MChar) : WrapSt :=
  if ¬ hidden st.byteIndex ∧ (width - 1 ≤ strW st.buf ∨ c = .nl) then
    let res2 := st.res ++ [st.buf ++ [padChar]]
    if c = .nl then { res := res2, buf := [padChar], byteIndex := st.byteIndex + 1 }
    else { res := res2, buf := [padChar, c], byteIndex := st.byteIndex + c.blen }
  else { st with buf := st.buf ++ [c], byteIndex := st.byteIndex + c.blen }

/-- TableCell::wrapped_content from src/src/table_cell.rs: folds the character
loop over the data and closes the final line. The hidden predicate stands for
the byte positions covered by ANSI escape matches of the external regex; none
models the usize underflow panic of the width threshold at width zero. -/
def wrappedContentM (data : List MChar) (padContent : Bool) (width : Nat)
    (hidden : Nat → Bool) : Option (List (List MChar)) :=
  if width = 0 then none
  else
    let padChar := wrapPadChar padContent
    let fin := data.foldl (wrapStep padChar width hidden)
      { res := [], buf := [padChar], byteIndex := 0 }
    some (fin.res ++ [fin.buf ++ [padChar]])

/-- Invariant of the wrapped_content loop: the line under construction starts
with the pad character and every finished line starts and ends with it. -/
def wrapInv (padChar : MChar) (st : WrapSt) : Prop :=
  st.buf.head? = some padChar
    ∧ ∀ l ∈ st.res, l.head? = some padChar ∧ l.getLast? = some padChar

/-- The wrapped_content loop body preserves the invariant. -/
theorem wrapStep_inv (padChar : MChar) (width : Nat) (hidden : Nat → Bool)
    (st : WrapSt) (c : MChar) (h : wrapInv padChar st) :
    wrapInv padChar (wrapStep padChar width hidden st c) := by
  obtain ⟨hbuf, hres⟩ := h
  have hbufne : st.buf ≠ [] := by
    intro hb
    rw [hb] at hbuf
    simp at hbuf
  have happ : ∀ x : MChar, (st.buf ++ [x]).head? = some padChar := by
    intro x
    cases hb : st.buf with
    | nil => exact absurd hb hbufne
    | cons b0 brest =>
      rw [hb] at hbuf
      simpa using hbuf
  have hclosed : ∀ l ∈ st.res ++ [st.buf ++ [padChar]],
      l.head? = some padChar ∧ l.getLast? = some padChar := by
    intro l hl
    rcases List.mem_append.mp hl with hl | hl
    · exact hres l hl
    · rcases List.mem_singleton.mp hl with rfl
      exact ⟨happ padChar, List.getLast?_concat _⟩
  unfold wrapStep
  split
  · split
    · exact ⟨by simp, hclosed⟩
    · exact ⟨by simp, hclosed⟩
  · exact ⟨happ c, hres⟩

/-- The invariant holds after folding the loop over any data. -/
theorem wrapFold_inv (padChar : MChar) (width : Nat) (hidden : Nat → Bool) :
    ∀ (data : List MChar) (st : WrapSt), wrapInv padChar st →
      wrapInv padChar (data.foldl (wrapStep padChar width hidden) st) := by
  intro data
  induction data with
  | nil => intro st h; exact h
  | cons c rest ih =>
    intro st h
    exact ih _ (wrapStep_inv padChar width hidden st c h)

/-- C10: every line rendered by Cell::render_line begins and ends with the
edge character, and every line produced by TableCell::wrapped_content begins
and ends with the pad character; without padding that character is NUL, which
appears in the output text but counts zero toward display width, and with
padding it is a space. -/
theorem c10_edge_and_pad_characters :
    (∀ (c : CellM) (newlines : List Nat) (lineIdx width : Nat) (out : List MChar),
        renderLineM c newlines lineIdx width = some out →
        out.head? = some (edgeCharM c.padContent)
          ∧ out.getLast? = some (edgeCharM c.padContent))
    ∧ (∀ (data : List MChar) (padContent : Bool) (width : Nat) (hidden : Nat → Bool)
          (lines : List (List MChar)) (l : List MChar),
        wrappedContentM data padContent width hidden = some lines → l ∈ lines →
        l.head? = some (wrapPadChar padContent)
          ∧ l.getLast? = some (wrapPadChar padContent))
    ∧ edgeCharM false = MChar.nul0 ∧ wrapPadChar false = MChar.nul0
    ∧ edgeCharM true = MChar.sp ∧ wrapPadChar true = MChar.sp
    ∧ MChar.dispW MChar.nul0 = 0 := by
  refine ⟨?_, ?_, rfl, rfl, rfl, rfl, rfl⟩
  · intro c newlines lineIdx width out h
    unfold renderLineM at h
    cases hsl : renderLineSlice c.content newlines lineIdx with
    | none => rw [hsl] at h; simp at h
    | some line =>
      rw [hsl] at h
      simp only [Option.some_bind] at h
      cases hgp : getPaddingM c.alignment width (strW line) with
      | none => rw [hgp] at h; simp at h
      | some fb =>
        rw [hgp] at h
        simp only [Option.map_some', Option.some_inj] at h
        subst h
        refine ⟨by simp, ?_⟩
        rw [show (edgeCharM c.padContent ::
            ((List.replicate fb.1 MChar.sp ++ line ++ List.replicate fb.2 MChar.sp)
              ++ [edgeCharM c.padContent]))
          = ((edgeCharM c.padContent ::
              (List.replicate fb.1 MChar.sp ++ line ++ List.replicate fb.2 MChar.sp))
            ++ [edgeCharM c.padContent]) from by simp]
        exact List.getLast?_concat _
  · intro data padContent width hidden lines l h hl
    unfold wrappedContentM at h
    split at h
    · simp at h
    · simp only [Option.some_inj] at h
      subst h
      have hinv : wrapInv (wrapPadChar padContent)
          (data.foldl (wrapStep (wrapPadChar padContent) width hidden)
            { res := [], buf := [wrapPadChar padContent], byteIndex := 0 }) :=
        wrapFold_inv _ _ _ data _ ⟨rfl, by simp⟩
      obtain ⟨hbuf, hres⟩ := hinv
      rcases List.mem_append.mp hl with hl | hl
      · exact hres l hl
      · rcases List.mem_singleton.mp hl with rfl
        set fin := data.foldl (wrapStep (wrapPadChar padContent) width hidden)
          { res := [], buf := [wrapPadChar padContent], byteIndex := 0 } with hfin
        refine ⟨?_, List.getLast?_concat _⟩
        cases hb : fin.buf with
        | nil => rw [hb] at hbuf; simp at hbuf
        | cons b0 brest =>
          rw [hb] at hbuf
          simp only [List.head?_cons, Option.some_inj] at hbuf
          subst hbuf
          simp

/-- Witness for C10: a one letter line rendered without padding at width 3 is
NUL, letter, NUL; and wrapping a one letter content without padding at width 5
yields the single line NUL, letter, NUL. -/
theorem c10_edge_and_pad_characters_witness :
    ([MChar.nul0, MChar.ltr, MChar.nul0] : List MChar).head? = some (edgeCharM false)
    ∧ ([MChar.nul0, MChar.ltr, MChar.nul0] : List MChar).getLast? = some (edgeCharM false) :=
  c10_edge_and_pad_characters.1
    { content := [MChar.ltr], colSpan := 1, alignment := .Left, padContent := false,
      layoutNewlines := some [0] }
    [0] 0 3 [MChar.nul0, MChar.ltr, MChar.nul0] (by rfl)
